import Mathlib

/-!
Verification of the extension-host command dispatch and language-model tool
invocation bridge.

The embedding covers two source components:

* `CommandService` (command dispatcher): `executeCommand` and
  `_tryExecuteCommand`, with the `_extensionHostIsReady` flag set once from
  `whenInstalledExtensionsRegistered()`.
* `ExtHostLanguageModelTools`: `invokeTool`, `$invokeTool`,
  `$countTokensForInvokation`, `$acceptToolDelta`, with the three per-process
  maps `_registeredTools`, `_tokenCountFuncs`, `_allTools`.

Modelling choices:

* JavaScript `Map` objects are embedded as association lists with
  first-match lookup, in-place replacement on `set`, and key removal on
  `delete` (`alGet`, `alSet`, `alDel`).
* Promise settlement is a three-way outcome `Settlement`: resolved value,
  rejection with an error message, or cancellation.  An `await` of a
  cross-process call is embedded by passing the call's settlement (or the
  far side's behaviour as a function) as an explicit parameter.
* `generateUuid()` guarantees a fresh, never-before-used call id; it is
  embedded as a natural-number counter `nextCallId` held in the state, so
  call ids are `Nat` rather than uuid strings.
* Pieces of the repository that the two core files call but that are not
  part of the source slice (the `extHostTypeConverters` conversion
  functions) are modelled from the spec, as marked on their doc comments.
-/

/-- Settlement of a promise/`Thenable`: resolved with a value, rejected with
an error message, or cancelled. -/
inductive Settlement (α : Type) where
  | ok (value : α)
  | err (message : String)
  | cancelled
  deriving DecidableEq, Repr

/-- A cancellation token threaded through every suspend point. -/
structure CancellationToken where
  isCancellationRequested : Bool
  deriving DecidableEq, Repr

/-- `CancellationToken.None` of the source. -/
def CancellationToken.none : CancellationToken := ⟨false⟩

/-! ## Association-list embedding of JavaScript `Map` -/

/-- `Map.get`: first entry with the key, if any. -/
def alGet [DecidableEq K] : List (K × α) → K → Option α
  | [], _ => Option.none
  | (k', v) :: rest, k => if k' = k then some v else alGet rest k

/-- `Map.set`: replace the entry in place if the key is present, otherwise
append. -/
def alSet [DecidableEq K] : List (K × α) → K → α → List (K × α)
  | [], k, v => [(k, v)]
  | (k', v') :: rest, k, v =>
      if k' = k then (k, v) :: rest else (k', v') :: alSet rest k v

/-- `Map.delete`: remove every entry with the key (a `Map` holds at most
one). -/
def alDel [DecidableEq K] : List (K × α) → K → List (K × α)
  | [], _ => []
  | (k', v') :: rest, k =>
      if k' = k then alDel rest k else (k', v') :: alDel rest k

theorem alGet_alSet_self [DecidableEq K] (m : List (K × α)) (k : K) (v : α) :
    alGet (alSet m k v) k = some v := by
  induction m with
  | nil => simp [alSet, alGet]
  | cons p rest ih =>
      obtain ⟨k', v'⟩ := p
      by_cases h : k' = k
      · simp [alSet, alGet, h]
      · simp [alSet, alGet, h, ih]

theorem alGet_alSet_ne [DecidableEq K] (m : List (K × α)) (k k' : K) (v : α)
    (h : k' ≠ k) : alGet (alSet m k v) k' = alGet m k' := by
  have h' : ¬k = k' := fun hc => h hc.symm
  induction m with
  | nil => simp [alSet, alGet, h']
  | cons p rest ih =>
      obtain ⟨k'', v''⟩ := p
      by_cases hk : k'' = k
      · subst hk
        simp [alSet, alGet, h']
      · simp [alSet, alGet, hk, ih]

theorem alGet_alDel_self [DecidableEq K] (m : List (K × α)) (k : K) :
    alGet (alDel m k) k = Option.none := by
  induction m with
  | nil => simp [alDel, alGet]
  | cons p rest ih =>
      obtain ⟨k', v'⟩ := p
      by_cases h : k' = k
      · simp [alDel, h, ih]
      · simp [alDel, alGet, h, ih]

theorem alDel_of_absent [DecidableEq K] (m : List (K × α)) (k : K)
    (h : alGet m k = Option.none) : alDel m k = m := by
  induction m with
  | nil => rfl
  | cons p rest ih =>
      obtain ⟨k', v'⟩ := p
      by_cases hk : k' = k
      · simp [alGet, hk] at h
      · simp [alGet, hk] at h
        simp [alDel, hk, ih h]

/-! ## Data model of the language-model tools bridge -/

/-- `IToolData`: descriptor metadata for a tool (id plus display metadata;
further metadata fields are irrelevant to the bridge and folded into one
opaque field). -/
structure IToolData where
  id : String
  displayName : String
  deriving DecidableEq, Repr

/-- `IToolDelta`: a change record with an optional added descriptor and an
optional removed id. -/
structure IToolDelta where
  added : Option IToolData
  removed : Option String
  deriving DecidableEq, Repr

/-- An `IChatMessage` of the main-thread wire representation (payload
opaque). -/
structure IChatMessage where
  content : String
  deriving DecidableEq, Repr

/-- A `vscode.LanguageModelChatMessage` of the extension API (payload
opaque). -/
structure VsChatMessage where
  content : String
  deriving DecidableEq, Repr

/-- Modelled from the spec: `typeConvert.LanguageModelChatMessage.to` from
`extHostTypeConverters` (not part of the source slice) converts a wire chat
message to the extension-API representation; the payload is carried over
unchanged. -/
def LanguageModelChatMessage.to (m : IChatMessage) : VsChatMessage :=
  ⟨m.content⟩

/-- The `input` argument of `$countTokensForInvokation`:
`string | IChatMessage`. -/
inductive CountInput where
  | str (s : String)
  | msg (m : IChatMessage)
  deriving DecidableEq, Repr

/-- The argument a registered counting function receives:
`string | vscode.LanguageModelChatMessage`. -/
inductive VsCountInput where
  | str (s : String)
  | msg (m : VsChatMessage)
  deriving DecidableEq, Repr

/-- The branch `typeof input === 'string' ? input :
typeConvert.LanguageModelChatMessage.to(input)`. -/
def convertCountInput : CountInput → VsCountInput
  | .str s => .str s
  | .msg m => .msg (LanguageModelChatMessage.to m)

/-- A caller-supplied token-counting function
`(text, token?) => Thenable<number>`, embedded by its settled value. -/
abbrev CountFn := VsCountInput → CancellationToken → Nat

/-- An `IToolResult` (wire representation; payload opaque). -/
structure IToolResult where
  payload : String
  deriving DecidableEq, Repr

/-- A `vscode.LanguageModelToolResult` (extension-API representation;
payload opaque). -/
structure VsLanguageModelToolResult where
  payload : String
  deriving DecidableEq, Repr

/-- Modelled from the spec: `typeConvert.LanguageModelToolResult.to` from
`extHostTypeConverters` (not part of the source slice) converts a raw wire
result to the caller's expected representation, carrying the payload over
unchanged. -/
def LanguageModelToolResult.to (r : IToolResult) : VsLanguageModelToolResult :=
  ⟨r.payload⟩

/-- Modelled from the spec: `typeConvert.LanguageModelToolResult.from` (the
opposite direction of the same converter pair, not part of the source
slice). -/
def LanguageModelToolResult.fromVscode (r : VsLanguageModelToolResult) : IToolResult :=
  ⟨r.payload⟩

/-- An entry of `_registeredTools`: `{ extension, tool }`.  The
`vscode.LanguageModelTool` handler object is a type parameter; its `invoke`
behaviour is supplied where the source awaits it. -/
structure ToolEntry (T : Type) where
  extension : String
  tool : T
  deriving DecidableEq, Repr

/-- `options.tokenOptions` as supplied by the caller of `invokeTool`. -/
structure TokenClientOptions where
  tokenBudget : Nat
  countTokens : CountFn

/-- `vscode.LanguageModelToolInvokationOptions` as supplied by the caller of
`invokeTool` (parameters opaque). -/
structure InvokeClientOptions where
  parameters : String
  tokenOptions : Option TokenClientOptions

/-- The wire dto of `$invokeTool`:
`{ toolId, callId, parameters, tokenBudget }`.  Call ids are embedded as
naturals (see the module comment on `generateUuid`). -/
structure IToolInvokationDto where
  toolId : String
  callId : Nat
  parameters : String
  tokenBudget : Option Nat
  deriving DecidableEq, Repr

/-- The `countTokens` capability `$invokeTool` attaches to the handler's
options: either the locally registered counting function for the call id, or
the remote fallback `(value, token) => this._proxy.$countTokensForInvokation(dto.callId, ..., token)`. -/
inductive CountCapability where
  | localFn (fn : CountFn)
  | remote (callId : Nat)

/-- `options.tokenOptions` as built by `$invokeTool` for the handler. -/
structure TokenBuiltOptions where
  tokenBudget : Nat
  countTokens : CountCapability

/-- The options value `$invokeTool` passes to the handler's `invoke`. -/
structure InvokeBuiltOptions where
  parameters : String
  tokenOptions : Option TokenBuiltOptions

/-- State of one `ExtHostLanguageModelTools` instance: the three maps, plus
the fresh-call-id counter embedding `generateUuid`. -/
structure ExtHostLanguageModelTools (T : Type) where
  registeredTools : List (String × ToolEntry T)
  tokenCountFuncs : List (Nat × CountFn)
  allTools : List (String × IToolData)
  nextCallId : Nat

/-! ## Operations of the tools bridge -/

/-- `$countTokensForInvokation(callId, input, token)`: look the counting
function up by call id; absent means
`throw new Error("Tool invokation call " + callId + " not found")`; present
means the function is awaited on the converted input. -/
def ExtHostLanguageModelTools.countTokensForInvokation
    (st : ExtHostLanguageModelTools T) (callId : Nat) (input : CountInput)
    (token : CancellationToken) : Except String Nat :=
  match alGet st.tokenCountFuncs callId with
  | Option.none =>
      .error ("Tool invokation call " ++ toString callId ++ " not found")
  | some fn => .ok (fn (convertCountInput input) token)

/-- The dto `invokeTool` sends through `this._proxy.$invokeTool`, with the
freshly generated call id. -/
def ExtHostLanguageModelTools.invokeDto (st : ExtHostLanguageModelTools T)
    (toolId : String) (options : InvokeClientOptions) : IToolInvokationDto :=
  { toolId := toolId
    callId := st.nextCallId
    parameters := options.parameters
    tokenBudget := options.tokenOptions.map (·.tokenBudget) }

/-- `invokeTool(toolId, options, token)`: generate a fresh call id, register
the caller's counting function under it when `options.tokenOptions` is
present, await the proxy round trip, convert the result, and — in the
`finally` block, on every settlement — delete the call id's entry from
`_tokenCountFuncs`.  The far side's behaviour is the parameter
`proxyInvoke`. -/
def ExtHostLanguageModelTools.invokeTool (st : ExtHostLanguageModelTools T)
    (toolId : String) (options : InvokeClientOptions) (token : CancellationToken)
    (proxyInvoke : IToolInvokationDto → CancellationToken → Settlement IToolResult) :
    Settlement VsLanguageModelToolResult × ExtHostLanguageModelTools T :=
  let callId := st.nextCallId
  let st1 := { st with nextCallId := st.nextCallId + 1 }
  let st2 := match options.tokenOptions with
    | some topts =>
        { st1 with tokenCountFuncs := alSet st1.tokenCountFuncs callId topts.countTokens }
    | Option.none => st1
  let result : Settlement VsLanguageModelToolResult :=
    match proxyInvoke (st.invokeDto toolId options) token with
    | .ok r => .ok (LanguageModelToolResult.to r)
    | .err e => .err e
    | .cancelled => .cancelled
  (result, { st2 with tokenCountFuncs := alDel st2.tokenCountFuncs callId })

/-- `$acceptToolDelta(delta)`: `delta.added` replaces the entry for its id in
`_allTools`; `delta.removed` deletes its id. -/
def ExtHostLanguageModelTools.acceptToolDelta
    (st : ExtHostLanguageModelTools T) (delta : IToolDelta) :
    ExtHostLanguageModelTools T :=
  let st1 := match delta.added with
    | some t => { st with allTools := alSet st.allTools t.id t }
    | Option.none => st
  match delta.removed with
  | some r => { st1 with allTools := alDel st1.allTools r }
  | Option.none => st1

/-- The resolution and option-building prefix of `$invokeTool`: resolve the
tool in `_registeredTools` (absent means
`throw new Error("Unknown tool " + dto.toolId)`); when `dto.tokenBudget` is
present, attach `countTokens` as the locally registered function for
`dto.callId` when one exists (`this._tokenCountFuncs.get(dto.callId)`), with
the remote `$countTokensForInvokation` round trip as the `||` fallback. -/
def ExtHostLanguageModelTools.invokeBuiltOptions
    (st : ExtHostLanguageModelTools T) (dto : IToolInvokationDto) :
    Except String (ToolEntry T × InvokeBuiltOptions) :=
  match alGet st.registeredTools dto.toolId with
  | Option.none => .error ("Unknown tool " ++ dto.toolId)
  | some item =>
      .ok (item,
        { parameters := dto.parameters
          tokenOptions := dto.tokenBudget.map (fun b =>
            { tokenBudget := b
              countTokens := match alGet st.tokenCountFuncs dto.callId with
                | some fn => CountCapability.localFn fn
                | Option.none => CountCapability.remote dto.callId }) })

/-- `$invokeTool(dto, token)`: build the options, await the handler
(`item.tool.invoke(options, token)`, supplied as `invokeHandler`), and
convert the result to the wire representation.  No map is mutated on any
path. -/
def ExtHostLanguageModelTools.dollarInvokeTool
    (st : ExtHostLanguageModelTools T) (dto : IToolInvokationDto)
    (token : CancellationToken)
    (invokeHandler : T → InvokeBuiltOptions → CancellationToken → Settlement VsLanguageModelToolResult) :
    Settlement IToolResult × ExtHostLanguageModelTools T :=
  match st.invokeBuiltOptions dto with
  | .error e => (.err e, st)
  | .ok (item, options) =>
      (match invokeHandler item.tool options token with
        | .ok r => .ok (LanguageModelToolResult.fromVscode r)
        | .err e => .err e
        | .cancelled => .cancelled, st)

/-! ## Command dispatcher (`CommandService`) -/

/-- `CommandsRegistry`: the process-local map from command id to handler
(`getCommand` is `alGet`).  The handler value is a type parameter. -/
abbrev CommandsRegistry (H : Type) := List (String × H)

/-- Which activation futures `executeCommand` awaits before executing the
command: none (the fast path), the `onCommand:<id>` activation alone, or
`Promise.all` of it and the broadcast `*` activation. -/
inductive ActivationWait where
  | noWait
  | onCommand
  | onCommandAndStar
  deriving DecidableEq, Repr

/-- The branch structure of `executeCommand`:
`if (!this._extensionHostIsReady && commandIsRegistered)` execute at once;
otherwise `waitFor` is the `onCommand` activation, widened to
`Promise.all([activation, activateByEvent("*")])` when the command is not
registered at dispatch time. -/
def CommandService.executeCommandWait
    (extensionHostIsReady commandIsRegistered : Bool) : ActivationWait :=
  if !extensionHostIsReady && commandIsRegistered then .noWait
  else if !commandIsRegistered then .onCommandAndStar
  else .onCommand

/-- `_tryExecuteCommand(id, args)`: look the command up; absent means
`Promise.reject(new Error("command '" + id + "' not found"))`; present means
fire `onWillExecuteCommand` and run the handler through
`_instantiationService.invokeFunction`, whose settlement (resolution, or the
rejection of a thrown error) is the parameter `invokeFunction`. -/
def CommandService.tryExecuteCommand (reg : CommandsRegistry H) (id : String)
    (invokeFunction : H → Settlement R) : Settlement R :=
  match alGet reg id with
  | Option.none => .err ("command '" ++ id ++ "' not found")
  | some command => invokeFunction command

/-- `executeCommand(id, args)`: compute the dispatch-time registration check
`commandIsRegistered`, choose the wait per `executeCommandWait`, and run
`_tryExecuteCommand` — against the dispatch-time registry on the fast path
(no suspension before execution), and against the registry as it stands
after the combined wait settles (`regAfterWait`) on the slow path.  Returns
the chosen wait together with the settlement. -/
def CommandService.executeCommand (extensionHostIsReady : Bool)
    (regAtDispatch regAfterWait : CommandsRegistry H) (id : String)
    (invokeFunction : H → Settlement R) : ActivationWait × Settlement R :=
  let commandIsRegistered := (alGet regAtDispatch id).isSome
  match CommandService.executeCommandWait extensionHostIsReady commandIsRegistered with
  | .noWait =>
      (.noWait, CommandService.tryExecuteCommand regAtDispatch id invokeFunction)
  | wait => (wait, CommandService.tryExecuteCommand regAfterWait id invokeFunction)

/-- The operations of one `CommandService` instance that can touch
`_extensionHostIsReady`: the (single) resolution of
`whenInstalledExtensionsRegistered().then(value => this._extensionHostIsReady = value)`,
and command executions, which never assign the flag. -/
inductive CommandServiceOp (H R : Type) where
  | installedExtensionsRegistered (value : Bool)
  | execute (id : String) (invokeFunction : H → Settlement R)

/-- Effect of one operation on `_extensionHostIsReady`. -/
def CommandServiceOp.applyToReady (ready : Bool) : CommandServiceOp H R → Bool
  | .installedExtensionsRegistered value => value
  | .execute _ _ => ready

/-- Whether an operation is the host-startup signal. -/
def CommandServiceOp.isReadySignal : CommandServiceOp H R → Bool
  | .installedExtensionsRegistered _ => true
  | .execute _ _ => false

/-- The successive values of `_extensionHostIsReady` along a run: the value
before each operation, and the final value. -/
def readyTrace (ready : Bool) : List (CommandServiceOp H R) → List Bool
  | [] => [ready]
  | op :: ops => ready :: readyTrace (op.applyToReady ready) ops

/-- Adjacent pairs of a list. -/
def transPairs : List Bool → List (Bool × Bool)
  | a :: b :: rest => (a, b) :: transPairs (b :: rest)
  | _ => []

/-- Number of true-to-false steps of a flag history. -/
def countResets (l : List Bool) : Nat :=
  (transPairs l).countP (fun p => p.1 && !p.2)

/-- Number of false-to-true steps of a flag history. -/
def countRises (l : List Bool) : Nat :=
  (transPairs l).countP (fun p => !p.1 && p.2)

theorem readyTrace_cons (r : Bool) (ops : List (CommandServiceOp H R)) :
    ∃ t, readyTrace r ops = r :: t := by
  cases ops <;> exact ⟨_, rfl⟩

theorem applyToReady_of_not_signal (op : CommandServiceOp H R) (r : Bool)
    (h : op.isReadySignal = false) : op.applyToReady r = r := by
  cases op with
  | installedExtensionsRegistered v => simp [CommandServiceOp.isReadySignal] at h
  | execute id f => rfl

theorem countResets_cons_cons (a b : Bool) (t : List Bool) :
    countResets (a :: b :: t) = countResets (b :: t) + (if a && !b then 1 else 0) := by
  simp [countResets, transPairs, List.countP_cons]

theorem countRises_cons_cons (a b : Bool) (t : List Bool) :
    countRises (a :: b :: t) = countRises (b :: t) + (if !a && b then 1 else 0) := by
  simp [countRises, transPairs, List.countP_cons]

theorem readyTrace_counts_of_no_signal (ops : List (CommandServiceOp H R)) (r : Bool)
    (h : ops.countP (fun op => op.isReadySignal) = 0) :
    countResets (readyTrace r ops) = 0 ∧ countRises (readyTrace r ops) = 0 := by
  induction ops generalizing r with
  | nil => exact ⟨rfl, rfl⟩
  | cons op rest ih =>
      rw [List.countP_cons] at h
      by_cases hc : op.isReadySignal
      · simp [hc] at h
      · simp only [hc, if_false, Nat.add_zero] at h
        have hr := applyToReady_of_not_signal op r (by simpa using hc)
        obtain ⟨t, ht⟩ := readyTrace_cons (op.applyToReady r) rest
        have hrec := ih r h
        rw [hr] at ht
        have hshape : readyTrace r (op :: rest) = r :: r :: t := by
          rw [show readyTrace r (op :: rest)
                = r :: readyTrace (op.applyToReady r) rest from rfl, hr, ht]
        rw [hshape]
        rw [ht] at hrec
        constructor
        · rw [countResets_cons_cons]
          simp [hrec.1]
        · rw [countRises_cons_cons]
          simp [hrec.2]

theorem readyTrace_false_counts (ops : List (CommandServiceOp H R))
    (h : ops.countP (fun op => op.isReadySignal) ≤ 1) :
    countResets (readyTrace false ops) = 0
    ∧ countRises (readyTrace false ops) ≤ 1 := by
  induction ops with
  | nil => exact ⟨rfl, by norm_num [readyTrace, countRises, transPairs]⟩
  | cons op rest ih =>
      rw [List.countP_cons] at h
      obtain ⟨t, ht⟩ := readyTrace_cons (op.applyToReady false) rest
      have hshape : readyTrace false (op :: rest)
          = false :: op.applyToReady false :: t := by
        rw [show readyTrace false (op :: rest)
              = false :: readyTrace (op.applyToReady false) rest from rfl, ht]
      by_cases hc : op.isReadySignal
      · have hrest : rest.countP (fun op => op.isReadySignal) = 0 := by
          simp only [hc, if_true] at h
          omega
        have hconst := readyTrace_counts_of_no_signal rest (op.applyToReady false) hrest
        rw [ht] at hconst
        rw [hshape]
        constructor
        · rw [countResets_cons_cons]
          simp [hconst.1]
        · rw [countRises_cons_cons]
          have h1 : countRises (op.applyToReady false :: t) = 0 := hconst.2
          rw [h1]
          by_cases hv : op.applyToReady false <;> simp [hv]
      · have hr := applyToReady_of_not_signal op false (by simpa using hc)
        have hrest : rest.countP (fun op => op.isReadySignal) ≤ 1 := by
          simp only [hc, if_false, Nat.add_zero] at h
          exact h
        have hrec := ih hrest
        rw [hr] at ht hshape
        rw [ht] at hrec
        rw [hshape]
        constructor
        · rw [countResets_cons_cons]
          simp [hrec.1]
        · rw [countRises_cons_cons]
          simpa using hrec.2

/-! ## Claims about the tools bridge -/

/-- C2: after `invokeTool` settles — whatever the proxy round trip's
settlement (success, failure, or cancellation) — the counting function
registered under the invocation's freshly generated call id is absent from
`_tokenCountFuncs`, and a subsequent `$countTokensForInvokation` with that
call id fails with the unknown-correlation error. -/
theorem claim_C2 (st : ExtHostLanguageModelTools T) (toolId : String)
    (options : InvokeClientOptions) (token tok2 : CancellationToken)
    (proxyInvoke : IToolInvokationDto → CancellationToken → Settlement IToolResult)
    (input : CountInput) :
    alGet ((st.invokeTool toolId options token proxyInvoke).2).tokenCountFuncs
        st.nextCallId = Option.none
    ∧ ((st.invokeTool toolId options token proxyInvoke).2).countTokensForInvokation
          st.nextCallId input tok2
        = Except.error ("Tool invokation call " ++ toString st.nextCallId ++ " not found") := by
  have hget : alGet ((st.invokeTool toolId options token proxyInvoke).2).tokenCountFuncs
      st.nextCallId = Option.none := by
    cases h : options.tokenOptions <;>
      simp [ExtHostLanguageModelTools.invokeTool, h, alGet_alDel_self]
  exact ⟨hget, by simp [ExtHostLanguageModelTools.countTokensForInvokation, hget]⟩

/-- C3: `$acceptToolDelta` on the mirror table: an added descriptor whose id
is already present replaces the stored descriptor; removing an id that was
never added leaves the table unchanged; adding a descriptor and then removing
its id leaves the table without the id. -/
theorem claim_C3 (st : ExtHostLanguageModelTools T) (tdata told : IToolData)
    (x : String) :
    (alGet st.allTools tdata.id = some told →
      alGet (st.acceptToolDelta ⟨some tdata, Option.none⟩).allTools tdata.id
        = some tdata)
    ∧ (alGet st.allTools x = Option.none →
        st.acceptToolDelta ⟨Option.none, some x⟩ = st)
    ∧ alGet ((st.acceptToolDelta ⟨some tdata, Option.none⟩).acceptToolDelta
          ⟨Option.none, some tdata.id⟩).allTools tdata.id = Option.none := by
  refine ⟨fun _ => ?_, fun h => ?_, ?_⟩
  · simp [ExtHostLanguageModelTools.acceptToolDelta, alGet_alSet_self]
  · simp [ExtHostLanguageModelTools.acceptToolDelta, alDel_of_absent _ _ h]
  · simp [ExtHostLanguageModelTools.acceptToolDelta, alGet_alDel_self]

/-- C4: `$invokeTool` for a tool id absent from the authoritative
`_registeredTools` fails with the unknown-tool error naming the id, and the
whole state — authoritative registry and mirror table included — is
unchanged. -/
theorem claim_C4 (st : ExtHostLanguageModelTools T) (dto : IToolInvokationDto)
    (token : CancellationToken)
    (invokeHandler : T → InvokeBuiltOptions → CancellationToken → Settlement VsLanguageModelToolResult)
    (h : alGet st.registeredTools dto.toolId = Option.none) :
    st.dollarInvokeTool dto token invokeHandler
      = (Settlement.err ("Unknown tool " ++ dto.toolId), st) := by
  simp [ExtHostLanguageModelTools.dollarInvokeTool,
    ExtHostLanguageModelTools.invokeBuiltOptions, h]

/-- C5: `$countTokensForInvokation` for a call id with no registered counting
function fails with the error naming the call id and returns no number; for a
registered call id it invokes exactly that call id's registered function. -/
theorem claim_C5 (st : ExtHostLanguageModelTools T) (callId : Nat)
    (input : CountInput) (token : CancellationToken) :
    (alGet st.tokenCountFuncs callId = Option.none →
      st.countTokensForInvokation callId input token
        = Except.error ("Tool invokation call " ++ toString callId ++ " not found"))
    ∧ ∀ fn, alGet st.tokenCountFuncs callId = some fn →
        st.countTokensForInvokation callId input token
          = Except.ok (fn (convertCountInput input) token) := by
  constructor
  · intro h
    simp [ExtHostLanguageModelTools.countTokensForInvokation, h]
  · intro fn h
    simp [ExtHostLanguageModelTools.countTokensForInvokation, h]

/-- C8: two invocations generate distinct call ids (the second runs on the
state the first left behind), registering a counting function under one call
id never changes what a callback with a different call id resolves to, and a
callback for a registered call id reaches exactly that id's function. -/
theorem claim_C8 (st : ExtHostLanguageModelTools T)
    (t1 t2 : String) (o1 o2 : InvokeClientOptions) (tk1 : CancellationToken)
    (p1 : IToolInvokationDto → CancellationToken → Settlement IToolResult)
    (a b : Nat) (fb : CountFn) (input : CountInput) (tok : CancellationToken) :
    (st.invokeDto t1 o1).callId
        ≠ ((st.invokeTool t1 o1 tk1 p1).2.invokeDto t2 o2).callId
    ∧ (a ≠ b →
        ExtHostLanguageModelTools.countTokensForInvokation
            { st with tokenCountFuncs := alSet st.tokenCountFuncs b fb }
            a input tok
          = st.countTokensForInvokation a input tok)
    ∧ ∀ fa, alGet st.tokenCountFuncs a = some fa →
        st.countTokensForInvokation a input tok
          = Except.ok (fa (convertCountInput input) tok) := by
  refine ⟨?_, fun hab => ?_, fun fa hfa => ?_⟩
  · have hnext : (st.invokeTool t1 o1 tk1 p1).2.nextCallId = st.nextCallId + 1 := by
      cases h : o1.tokenOptions <;> simp [ExtHostLanguageModelTools.invokeTool, h]
    simp [ExtHostLanguageModelTools.invokeDto, hnext]
  · simp [ExtHostLanguageModelTools.countTokensForInvokation,
      alGet_alSet_ne _ _ _ _ hab]
  · simp [ExtHostLanguageModelTools.countTokensForInvokation, hfa]

/-- C10: when `$invokeTool` is given a token budget, the counting capability
it attaches to the handler's options is the locally registered counting
function for the incoming call id whenever one exists in this extension host,
and only when none exists is it the remote `$countTokensForInvokation`
fallback. -/
theorem claim_C10 (st : ExtHostLanguageModelTools T) (dto : IToolInvokationDto)
    (item : ToolEntry T) (opts : InvokeBuiltOptions) (b : Nat)
    (hok : st.invokeBuiltOptions dto = Except.ok (item, opts))
    (hb : dto.tokenBudget = some b) :
    ∃ topts, opts.tokenOptions = some topts ∧ topts.tokenBudget = b
      ∧ (∀ fn, alGet st.tokenCountFuncs dto.callId = some fn →
            topts.countTokens = CountCapability.localFn fn)
      ∧ (alGet st.tokenCountFuncs dto.callId = Option.none →
            topts.countTokens = CountCapability.remote dto.callId) := by
  unfold ExtHostLanguageModelTools.invokeBuiltOptions at hok
  cases hreg : alGet st.registeredTools dto.toolId with
  | none =>
      rw [hreg] at hok
      exact absurd hok (by simp)
  | some it =>
      rw [hreg] at hok
      rw [Except.ok.injEq, Prod.mk.injEq] at hok
      obtain ⟨h1, h2⟩ := hok
      subst h2
      cases halg : alGet st.tokenCountFuncs dto.callId with
      | none =>
          refine ⟨⟨b, CountCapability.remote dto.callId⟩, ?_, rfl, ?_, fun _ => rfl⟩
          · simp [hb, halg]
          · intro fn hfn
            cases hfn
      | some fn0 =>
          refine ⟨⟨b, CountCapability.localFn fn0⟩, ?_, rfl, ?_, ?_⟩
          · simp [hb, halg]
          · intro fn hfn
            cases hfn
            rfl
          · intro hnone
            cases hnone

/-! ## Claims about the command dispatcher -/

/-- C1 (counterexample): the claim says that with the extension host fully
ready (`_extensionHostIsReady = true`) and the command already registered,
`executeCommand` takes the fast path and never awaits the activation future.
The source's guard is `if (!this._extensionHostIsReady && commandIsRegistered)`,
so with the host ready and the command `"c"` registered the dispatcher awaits
the `onCommand` activation future rather than taking the fast path. -/
theorem claim_C1_counterexample :
    (CommandService.executeCommand true [("c", 1)] [("c", 1)] "c"
        (fun (h : Nat) => Settlement.ok h)).1 = ActivationWait.onCommand
    ∧ ActivationWait.onCommand ≠ ActivationWait.noWait := by
  constructor
  · rfl
  · decide

/-- C1 (amended): `executeCommand` takes the fast path — no await before the
handler runs, execution against the dispatch-time registry — exactly when the
extension host is NOT yet ready and the command is already registered; once
the host is ready it always awaits the activation future. -/
theorem claim_C1_amended (ready : Bool) (regD regA : CommandsRegistry H)
    (id : String) (f : H → Settlement R) :
    ((CommandService.executeCommand ready regD regA id f).1 = ActivationWait.noWait
      ↔ ready = false ∧ (alGet regD id).isSome = true)
    ∧ (ready = false → (alGet regD id).isSome = true →
        (CommandService.executeCommand ready regD regA id f).2
          = CommandService.tryExecuteCommand regD id f) := by
  cases ready <;> cases hreg : (alGet regD id).isSome <;>
    simp [CommandService.executeCommand, CommandService.executeCommandWait, hreg]

/-- C6: when, after the activation wait has settled (slow path taken), the
command is still absent from the registry, `executeCommand` fails with the
error carrying the command id, and no handler is invoked (the settlement does
not depend on the handler runner). -/
theorem claim_C6 (ready : Bool) (regD regA : CommandsRegistry H) (id : String)
    (f g : H → Settlement R)
    (habsent : alGet regA id = Option.none)
    (hslow : (CommandService.executeCommand ready regD regA id f).1
        ≠ ActivationWait.noWait) :
    (CommandService.executeCommand ready regD regA id f).2
        = Settlement.err ("command '" ++ id ++ "' not found")
    ∧ (CommandService.executeCommand ready regD regA id f).2
        = (CommandService.executeCommand ready regD regA id g).2 := by
  cases ready <;> cases hreg : (alGet regD id).isSome <;>
    simp [CommandService.executeCommand, CommandService.executeCommandWait, hreg,
      CommandService.tryExecuteCommand, habsent] at hslow ⊢

/-- C7: on the slow path the combined wait is the `onCommand` activation
future, extended with the broadcast `*` future exactly when the command is
not registered at dispatch time; once the wait settles the registry is looked
up again (`regAfterWait`) and execution goes through `_tryExecuteCommand`. -/
theorem claim_C7 (ready : Bool) (regD regA : CommandsRegistry H) (id : String)
    (f : H → Settlement R)
    (hslow : ¬(ready = false ∧ (alGet regD id).isSome = true)) :
    ((CommandService.executeCommand ready regD regA id f).1
        = if (alGet regD id).isSome then ActivationWait.onCommand
          else ActivationWait.onCommandAndStar)
    ∧ (CommandService.executeCommand ready regD regA id f).2
        = CommandService.tryExecuteCommand regA id f := by
  cases ready <;> cases hreg : (alGet regD id).isSome <;>
    simp [CommandService.executeCommand, CommandService.executeCommandWait,
      hreg] at hslow ⊢

/-- C9: along any run of the command service in which the host-startup signal
(`whenInstalledExtensionsRegistered` resolution) is delivered at most once,
the `_extensionHostIsReady` flag — starting `false` — makes no true-to-false
step and at most one false-to-true step; and no `executeCommand` operation
ever assigns the flag. -/
theorem claim_C9 (ops : List (CommandServiceOp H R))
    (h : ops.countP (fun op => op.isReadySignal) ≤ 1) :
    countResets (readyTrace false ops) = 0
    ∧ countRises (readyTrace false ops) ≤ 1
    ∧ ∀ (ready : Bool) (id : String) (f : H → Settlement R),
        (CommandServiceOp.execute id f).applyToReady ready = ready := by
  obtain ⟨h1, h2⟩ := readyTrace_false_counts ops h
  exact ⟨h1, h2, fun _ _ _ => rfl⟩

/-! ## Concrete witnesses -/

/-- Witness for C1 (amended) at a host-not-ready state with `"c"`
registered at dispatch time. -/
theorem claim_C1_amended_witness :
    ((CommandService.executeCommand false [("c", (1 : Nat))] [] "c"
        (fun h => Settlement.ok h)).1 = ActivationWait.noWait
      ↔ false = false ∧ (alGet [("c", (1 : Nat))] "c").isSome = true)
    ∧ (CommandService.executeCommand false [("c", (1 : Nat))] [] "c"
        (fun h => Settlement.ok h)).2
        = CommandService.tryExecuteCommand [("c", (1 : Nat))] "c"
            (fun h => Settlement.ok h) :=
  ⟨(claim_C1_amended false [("c", 1)] [] "c" (fun h => Settlement.ok h)).1,
    (claim_C1_amended false [("c", 1)] [] "c" (fun h => Settlement.ok h)).2
      rfl (by decide)⟩

/-- Witness for C3 on a mirror table holding one descriptor for `"t"`. -/
theorem claim_C3_witness :
    (alGet ((ExtHostLanguageModelTools.acceptToolDelta
          (⟨[], [], [("t", ⟨"t", "Old"⟩)], 0⟩ : ExtHostLanguageModelTools Unit)
          ⟨some ⟨"t", "New"⟩, Option.none⟩).allTools) "t" = some ⟨"t", "New"⟩)
    ∧ (ExtHostLanguageModelTools.acceptToolDelta
          (⟨[], [], [("t", ⟨"t", "Old"⟩)], 0⟩ : ExtHostLanguageModelTools Unit)
          ⟨Option.none, some "u"⟩
        = (⟨[], [], [("t", ⟨"t", "Old"⟩)], 0⟩ : ExtHostLanguageModelTools Unit))
    ∧ alGet ((ExtHostLanguageModelTools.acceptToolDelta
          (ExtHostLanguageModelTools.acceptToolDelta
            (⟨[], [], [("t", ⟨"t", "Old"⟩)], 0⟩ : ExtHostLanguageModelTools Unit)
            ⟨some ⟨"t", "New"⟩, Option.none⟩)
          ⟨Option.none, some "t"⟩).allTools) "t" = Option.none := by
  obtain ⟨c1, c2, c3⟩ :=
    claim_C3 (⟨[], [], [("t", ⟨"t", "Old"⟩)], 0⟩ : ExtHostLanguageModelTools Unit)
      ⟨"t", "New"⟩ ⟨"t", "Old"⟩ "u"
  exact ⟨c1 rfl, c2 rfl, c3⟩

/-- Witness for C4: invoking the unregistered tool `"missing"` from an empty
authoritative registry. -/
theorem claim_C4_witness :
    ExtHostLanguageModelTools.dollarInvokeTool
        (⟨[], [], [], 0⟩ : ExtHostLanguageModelTools Unit)
        ⟨"missing", 0, "p", Option.none⟩ ⟨false⟩
        (fun _ _ _ => Settlement.cancelled)
      = (Settlement.err ("Unknown tool " ++ "missing"), ⟨[], [], [], 0⟩) :=
  claim_C4 (⟨[], [], [], 0⟩ : ExtHostLanguageModelTools Unit)
    ⟨"missing", 0, "p", Option.none⟩ ⟨false⟩
    (fun _ _ _ => Settlement.cancelled) rfl

/-- Witness for C5: an unregistered call id `7` fails; the registered call
id `3` reaches its own function. -/
theorem claim_C5_witness :
    ExtHostLanguageModelTools.countTokensForInvokation
        (⟨[], [], [], 0⟩ : ExtHostLanguageModelTools Unit) 7
        (CountInput.str "hello") ⟨false⟩
      = Except.error ("Tool invokation call " ++ toString 7 ++ " not found")
    ∧ ExtHostLanguageModelTools.countTokensForInvokation
        (⟨[], [(3, fun _ _ => 5)], [], 0⟩ : ExtHostLanguageModelTools Unit) 3
        (CountInput.str "hello") ⟨false⟩
      = Except.ok 5 :=
  ⟨(claim_C5 (⟨[], [], [], 0⟩ : ExtHostLanguageModelTools Unit) 7
      (CountInput.str "hello") ⟨false⟩).1 rfl,
    (claim_C5 (⟨[], [(3, fun _ _ => 5)], [], 0⟩ : ExtHostLanguageModelTools Unit) 3
      (CountInput.str "hello") ⟨false⟩).2 (fun _ _ => 5) rfl⟩

/-- Witness for C6: the host is ready, `"c"` is registered at dispatch time
(slow path), and after the wait the registry is empty. -/
theorem claim_C6_witness :
    (CommandService.executeCommand true [("c", (1 : Nat))] [] "c"
        (fun h => Settlement.ok h)).2
      = Settlement.err ("command '" ++ "c" ++ "' not found")
    ∧ (CommandService.executeCommand true [("c", (1 : Nat))] [] "c"
        (fun h => Settlement.ok h)).2
      = (CommandService.executeCommand true [("c", (1 : Nat))] [] "c"
          (fun _ => Settlement.cancelled)).2 :=
  claim_C6 true [("c", 1)] [] "c" (fun h => Settlement.ok h)
    (fun _ => Settlement.cancelled) rfl (by decide)

/-- Witness for C7: host ready, `"c"` not registered at dispatch time, so the
combined wait includes the broadcast `*` future, and execution uses the
after-wait registry. -/
theorem claim_C7_witness :
    ((CommandService.executeCommand true ([] : CommandsRegistry Nat)
        [("c", 1)] "c" (fun h => Settlement.ok h)).1
      = if (alGet ([] : CommandsRegistry Nat) "c").isSome then
          ActivationWait.onCommand else ActivationWait.onCommandAndStar)
    ∧ (CommandService.executeCommand true ([] : CommandsRegistry Nat)
        [("c", 1)] "c" (fun h => Settlement.ok h)).2
      = CommandService.tryExecuteCommand [("c", 1)] "c"
          (fun h => Settlement.ok h) :=
  claim_C7 true [] [("c", 1)] "c" (fun h => Settlement.ok h) (by decide)

/-- Witness for C8 on a state with call id `1` registered: two invocations
from it would use distinct ids, registering id `2` leaves id `1`'s callback
unaffected, and id `1`'s callback reaches its own function. -/
theorem claim_C8_witness :
    ((⟨[], [(1, fun _ _ => 9)], [], 0⟩ : ExtHostLanguageModelTools Unit).invokeDto
        "a" ⟨"p", Option.none⟩).callId
      ≠ (((⟨[], [(1, fun _ _ => 9)], [], 0⟩ : ExtHostLanguageModelTools Unit).invokeTool
          "a" ⟨"p", Option.none⟩ ⟨false⟩
          (fun _ _ => Settlement.cancelled)).2.invokeDto "b" ⟨"q", Option.none⟩).callId
    ∧ ExtHostLanguageModelTools.countTokensForInvokation
        { (⟨[], [(1, fun _ _ => 9)], [], 0⟩ : ExtHostLanguageModelTools Unit) with
            tokenCountFuncs :=
              alSet (⟨[], [(1, fun _ _ => 9)], [], 0⟩ :
                  ExtHostLanguageModelTools Unit).tokenCountFuncs 2 (fun _ _ => 3) }
        1 (CountInput.str "x") ⟨false⟩
      = ExtHostLanguageModelTools.countTokensForInvokation
          (⟨[], [(1, fun _ _ => 9)], [], 0⟩ : ExtHostLanguageModelTools Unit) 1
          (CountInput.str "x") ⟨false⟩
    ∧ ExtHostLanguageModelTools.countTokensForInvokation
        (⟨[], [(1, fun _ _ => 9)], [], 0⟩ : ExtHostLanguageModelTools Unit) 1
        (CountInput.str "x") ⟨false⟩
      = Except.ok 9 := by
  have h8 := claim_C8 (⟨[], [(1, fun _ _ => 9)], [], 0⟩ : ExtHostLanguageModelTools Unit)
    "a" "b" ⟨"p", Option.none⟩ ⟨"q", Option.none⟩ ⟨false⟩
    (fun _ _ => Settlement.cancelled) 1 2 (fun _ _ => 3)
    (CountInput.str "x") ⟨false⟩
  exact ⟨h8.1, h8.2.1 (by decide), h8.2.2 (fun _ _ => 9) rfl⟩

/-- Witness for C9 on a three-operation run whose single startup signal
arrives between two command executions. -/
theorem claim_C9_witness :
    countResets (readyTrace false
        [CommandServiceOp.execute (H := Nat) (R := Nat) "x" (fun n => Settlement.ok n),
          CommandServiceOp.installedExtensionsRegistered true,
          CommandServiceOp.execute "y" (fun n => Settlement.ok n)]) = 0
    ∧ countRises (readyTrace false
        [CommandServiceOp.execute (H := Nat) (R := Nat) "x" (fun n => Settlement.ok n),
          CommandServiceOp.installedExtensionsRegistered true,
          CommandServiceOp.execute "y" (fun n => Settlement.ok n)]) ≤ 1
    ∧ (CommandServiceOp.execute (H := Nat) (R := Nat) "z"
        (fun n => Settlement.ok n)).applyToReady true = true := by
  have h9 := claim_C9
    [CommandServiceOp.execute (H := Nat) (R := Nat) "x" (fun n => Settlement.ok n),
      CommandServiceOp.installedExtensionsRegistered true,
      CommandServiceOp.execute "y" (fun n => Settlement.ok n)] (by decide)
  exact ⟨h9.1, h9.2.1, h9.2.2 true "z" (fun n => Settlement.ok n)⟩

/-- Witness for C10: tool `"t"` is registered, the budget is `100`, and no
local counting function exists for call id `5`, so the capability is the
remote fallback. -/
theorem claim_C10_witness :
    ∃ topts,
      (InvokeBuiltOptions.mk "p"
          (some ⟨100, CountCapability.remote 5⟩)).tokenOptions = some topts
      ∧ topts.tokenBudget = 100
      ∧ (∀ fn, alGet ((⟨[("t", ⟨"ext", ()⟩)], [], [], 0⟩ :
            ExtHostLanguageModelTools Unit)).tokenCountFuncs 5 = some fn →
            topts.countTokens = CountCapability.localFn fn)
      ∧ (alGet ((⟨[("t", ⟨"ext", ()⟩)], [], [], 0⟩ :
            ExtHostLanguageModelTools Unit)).tokenCountFuncs 5 = Option.none →
            topts.countTokens = CountCapability.remote 5) :=
  claim_C10 (⟨[("t", ⟨"ext", ()⟩)], [], [], 0⟩ : ExtHostLanguageModelTools Unit)
    ⟨"t", 5, "p", some 100⟩ ⟨"ext", ()⟩
    ⟨"p", some ⟨100, CountCapability.remote 5⟩⟩ 100 rfl rfl
